import Mathlib

/-!
Verification of the filter-and-aggregate engine of the SCP Savings Dashboard
(`app.py`).  The dashboard loads one tabular sheet, renames the two
"Difference (PA)" columns to `Savings_Finance` / `Savings_SCP`, coerces them to
numbers with `pd.to_numeric(..., errors="coerce").fillna(0)`, coerces
`Contract Start` / `Contract End` with `pd.to_datetime(..., errors="coerce")`,
applies up to five sequential filters (two date bounds, two fiscal-year
equality filters with sentinel `"All"`, one domain equality filter with
sentinel `"All Domains"`), and computes scalar metrics and a per-domain
groupby/sum.

The embedding below models one row as a fixed-schema record.  Numeric cells
are rationals (the dashboard's floats carry exact decimal data), dates are
integers (day ordinals: `pd.Timestamp` comparisons are a total order on
present values, and `NaT` compares `False` under `>=`/`<=`), and the pandas
`NaN`/`NaT` missing values are `Option.none`.
-/

namespace SCP

/-- A raw cell of the loaded sheet before normalization: a string, a number,
a date, or an empty cell. -/
inductive RawValue : Type
  | str (s : String)
  | num (q : ℚ)
  | dateVal (d : ℤ)
  | missing
deriving DecidableEq, Repr

/-- Numeric value of a decimal digit character, `none` on a non-digit. -/
def digitVal (c : Char) : Option ℕ :=
  if c.isDigit then some (c.toNat - 48) else none

/-- Parse a nonempty all-digit character list as a natural number
(`none` on empty input or any non-digit). -/
def parseNatDigits (cs : List Char) : Option ℕ :=
  match cs with
  | [] => none
  | _ => cs.foldlM (fun acc c => (digitVal c).map (fun d => acc * 10 + d)) 0

/-- Split a character list at the first literal dot: the part before it and,
when a dot occurs, the part after it. -/
def breakAtDot : List Char → List Char × Option (List Char)
  | [] => ([], none)
  | c :: cs =>
      if c = '.' then ([], some cs)
      else
        let p := breakAtDot cs
        (c :: p.1, p.2)

/-- Decimal-string parser modelling the numeric coercion
`pd.to_numeric(..., errors="coerce")` applied to a string cell: an optional
leading minus sign, digits, and an optional fractional part.  Anything else
fails (which pandas turns into `NaN`). -/
def parseRatString (s : String) : Option ℚ :=
  match s.toList with
  | [] => none
  | cs =>
      let signed : Bool × List Char :=
        match cs with
        | '-' :: rest => (true, rest)
        | _ => (false, cs)
      let body := breakAtDot signed.2
      match body.2 with
      | none =>
          (parseNatDigits body.1).map
            (fun n => (if signed.1 then -1 else 1) * (n : ℚ))
      | some fracCs =>
          match parseNatDigits body.1, parseNatDigits fracCs with
          | some a, some b =>
              some ((if signed.1 then -1 else 1) *
                ((a : ℚ) + (b : ℚ) / (10 : ℚ) ^ fracCs.length))
          | _, _ => none

/-- Model of `pd.to_numeric(..., errors="coerce")` on one cell: numbers pass through,
numeric-looking strings parse, everything else becomes missing (`NaN`). -/
def coerceNum : RawValue → Option ℚ
  | .num q => some q
  | .str s => parseRatString s
  | .dateVal _ => none
  | .missing => none

/-- Model of `pd.to_datetime(..., errors="coerce")` on one cell: a date passes
through, every non-date cell becomes missing (`NaT`). -/
def coerceDate : RawValue → Option ℤ
  | .dateVal d => some d
  | _ => none

/-- One raw row of the `Savings_WIP_Data` sheet after the column renames:
the two designated date cells, the two designated measure cells, the three
categorical cells used by the filters (missing = `NaN`), and the remaining
non-designated cells, kept as raw (column name, cell) pairs. -/
structure RawRecord : Type where
  rawContractStart : RawValue
  rawContractEnd : RawValue
  rawSavingsFinance : RawValue
  rawSavingsSCP : RawValue
  financeFY : Option String
  scpFY : Option String
  domain : Option String
  extra : List (String × RawValue)
deriving DecidableEq, Repr

/-- One normalized row: measures are numbers (missing/unparseable became 0),
dates are present-or-absent, categoricals and the non-designated cells are
unchanged. -/
structure Record : Type where
  contractStart : Option ℤ
  contractEnd : Option ℤ
  savingsFinance : ℚ
  savingsSCP : ℚ
  financeFY : Option String
  scpFY : Option String
  domain : Option String
  extra : List (String × RawValue)
deriving DecidableEq, Repr

/-- Normalization of one row, mirroring app.py lines 253-260:
`df[c] = pd.to_numeric(df[c], errors="coerce").fillna(0)` for the two
measure columns and `df[c] = pd.to_datetime(df[c], errors="coerce")` for the
two date columns; all other cells pass through unchanged. -/
def normalizeRecord (r : RawRecord) : Record where
  contractStart := coerceDate r.rawContractStart
  contractEnd := coerceDate r.rawContractEnd
  savingsFinance := (coerceNum r.rawSavingsFinance).getD 0
  savingsSCP := (coerceNum r.rawSavingsSCP).getD 0
  financeFY := r.financeFY
  scpFY := r.scpFY
  domain := r.domain
  extra := r.extra

/-- Normalization of the whole sheet: rowwise, order-preserving, total. -/
def normalize (rs : List RawRecord) : List Record :=
  rs.map normalizeRecord

/-- The filter state assembled from the sidebar widgets: optional lower
bound on `Contract Start`, optional upper bound on `Contract End`, and the
three categorical selections with their accept-all sentinels (`"All"`,
`"All"`, `"All Domains"`). -/
structure FilterSpec : Type where
  startDateFilter : Option ℤ
  endDateFilter : Option ℤ
  financeFYFilter : String
  scpFYFilter : String
  domainFilter : String
deriving DecidableEq, Repr

/-- Step `filtered_df = filtered_df[filtered_df["Contract Start"] >= pd.Timestamp(b)]`
when a start date is selected; a `NaT` cell compares `False`. -/
def applyStartDate (b : Option ℤ) (ds : List Record) : List Record :=
  match b with
  | none => ds
  | some lb =>
      ds.filter (fun r =>
        match r.contractStart with
        | some d => decide (lb ≤ d)
        | none => false)

/-- Step `filtered_df = filtered_df[filtered_df["Contract End"] <= pd.Timestamp(b)]`
when an end date is selected; a `NaT` cell compares `False`. -/
def applyEndDate (b : Option ℤ) (ds : List Record) : List Record :=
  match b with
  | none => ds
  | some ub =>
      ds.filter (fun r =>
        match r.contractEnd with
        | some d => decide (d ≤ ub)
        | none => false)

/-- Step `if finance_fy_filter != "All": filtered_df = filtered_df[... == filter]`;
pandas `==` against a `NaN` cell is `False`. -/
def applyFinanceFY (f : String) (ds : List Record) : List Record :=
  if f = "All" then ds
  else ds.filter (fun r => decide (r.financeFY = some f))

/-- Step `if scp_fy_filter != "All": filtered_df = filtered_df[... == filter]`. -/
def applyScpFY (f : String) (ds : List Record) : List Record :=
  if f = "All" then ds
  else ds.filter (fun r => decide (r.scpFY = some f))

/-- Step `if domain_filter != "All Domains": filtered_df = filtered_df[... == filter]`. -/
def applyDomain (f : String) (ds : List Record) : List Record :=
  if f = "All Domains" then ds
  else ds.filter (fun r => decide (r.domain = some f))

/-- The full filter pipeline of app.py lines 340-358: the five narrowing
steps applied to `filtered_df = df.copy()` in source order. -/
def applyFilters (spec : FilterSpec) (ds : List Record) : List Record :=
  applyDomain spec.domainFilter
    (applyScpFY spec.scpFYFilter
      (applyFinanceFY spec.financeFYFilter
        (applyEndDate spec.endDateFilter
          (applyStartDate spec.startDateFilter ds))))

/-- The empty filter specification: no date bound selected, every
categorical selector on its accept-all sentinel. -/
def emptyFilterSpec : FilterSpec :=
  ⟨none, none, "All", "All", "All Domains"⟩

/-- Model of `filtered_df[col].sum()` for a measure column `f`; the pandas sum of an
empty column is 0. -/
def colTotal (f : Record → ℚ) (rs : List Record) : ℚ :=
  (rs.map f).sum

/-- Model of `filtered_df.loc[filtered_df[col] > 0, col].sum()` (app.py line 362). -/
def colGains (f : Record → ℚ) (rs : List Record) : ℚ :=
  ((rs.filter (fun r => decide (0 < f r))).map f).sum

/-- Model of `filtered_df.loc[filtered_df[col] < 0, col].sum()` (app.py line 363). -/
def colRisks (f : Record → ℚ) (rs : List Record) : ℚ :=
  ((rs.filter (fun r => decide (f r < 0))).map f).sum

/-- Model of `filtered_df[col].mean()` (app.py line 598): sum divided by length on a
nonempty column, and pandas `NaN` — modelled as `none` — on an empty one. -/
def colMean (f : Record → ℚ) (rs : List Record) : Option ℚ :=
  if rs.length = 0 then none
  else some (colTotal f rs / (rs.length : ℚ))

/-- The five summary scalars the spec calls `SummaryMetrics`.  `mean` is an
`Option` because the pandas mean of an empty column is `NaN`, which has no
rational value. -/
structure SummaryMetrics : Type where
  total : ℚ
  positiveSum : ℚ
  negativeSum : ℚ
  count : ℕ
  mean : Option ℚ
deriving DecidableEq, Repr

/-- The spec's `summarize(filteredView, measureColumn)`: the bundle of the
five scalars the dashboard computes from a filtered view (app.py lines
361-363, 595, 598). -/
def summarize (f : Record → ℚ) (rs : List Record) : SummaryMetrics where
  total := colTotal f rs
  positiveSum := colGains f rs
  negativeSum := colRisks f rs
  count := rs.length
  mean := colMean f rs

/-- The `Savings_Finance` measure column as a projection. -/
def savingsFinanceCol : Record → ℚ := fun r => r.savingsFinance

/-- Source `total_finance_savings = filtered_df["Savings_Finance"].sum()` (line 361). -/
def total_finance_savings (rs : List Record) : ℚ :=
  colTotal savingsFinanceCol rs

/-- Source `gains_finance` (app.py line 362). -/
def gains_finance (rs : List Record) : ℚ :=
  colGains savingsFinanceCol rs

/-- Source `risks_finance` (app.py line 363). -/
def risks_finance (rs : List Record) : ℚ :=
  colRisks savingsFinanceCol rs

/-- Source `avg_finance = filtered_df["Savings_Finance"].mean()` (app.py line 598). -/
def avg_finance (rs : List Record) : Option ℚ :=
  colMean savingsFinanceCol rs

/-- Insert into a list in front of the first element the comparator accepts. -/
def insertLe {α : Type} (le : α → α → Bool) (x : α) : List α → List α
  | [] => [x]
  | y :: ys => if le x y then x :: y :: ys else y :: insertLe le x ys

/-- Insertion sort under a boolean comparator; the embedding of the sorts
done by `groupby(..., sort=True)` and `sort_values`. -/
def isort {α : Type} (le : α → α → Bool) : List α → List α
  | [] => []
  | x :: xs => insertLe le x (isort le xs)

/-- Lexicographic order on character lists (Python's string order, by code
point). -/
def charListLt : List Char → List Char → Bool
  | [], [] => false
  | [], _ :: _ => true
  | _ :: _, [] => false
  | a :: as, b :: bs =>
      if a < b then true else if b < a then false else charListLt as bs

/-- Boolean string order used when pandas sorts group keys. -/
def strLeB (a b : String) : Bool :=
  charListLt a.toList b.toList || decide (a.toList = b.toList)

/-- The group keys produced by `filtered_df.groupby(col)`: the distinct
present values of the group column, sorted ascending.  pandas `groupby`
defaults to `dropna=True`, so a missing (`NaN`) group value yields no key. -/
def groupKeys (g : Record → Option String) (rs : List Record) : List String :=
  isort strLeB (rs.filterMap g).dedup

/-- Model of `filtered_df.groupby(g)[col].sum().reset_index()`: one (key, sum) pair
per group key, in key order. -/
def groupSums (g : Record → Option String) (f : Record → ℚ)
    (rs : List Record) : List (String × ℚ) :=
  (groupKeys g rs).map
    (fun k => (k, colTotal f (rs.filter (fun r => decide (g r = some k)))))

/-- Model of `.sort_values(col, ascending=True)` on the (key, sum) pairs. -/
def sortByValue (ps : List (String × ℚ)) : List (String × ℚ) :=
  isort (fun p q => decide (p.2 ≤ q.2)) ps

/-- The spec's `groupAggregate`: groupby-sum then sort by aggregated value
ascending, as in app.py lines 545-546. -/
def groupAggregate (g : Record → Option String) (f : Record → ℚ)
    (rs : List Record) : List (String × ℚ) :=
  sortByValue (groupSums g f rs)

/-- Source `domain_finance` (app.py lines 545-546): per-domain sums of
`Savings_Finance`, sorted by value ascending. -/
def domain_finance (rs : List Record) : List (String × ℚ) :=
  groupAggregate (fun r => r.domain) savingsFinanceCol rs

/-- A record with domain "IT", finance savings 100, both dates present;
used to instantiate universally quantified theorems. -/
def recIT : Record :=
  ⟨some 10, some 20, 100, 5, some "FY26", some "FY26", some "IT", []⟩

/-- A record with domain "HR", negative finance savings, one absent date. -/
def recHR : Record :=
  ⟨none, some 30, -40, 3, some "FY26", some "FY25", some "HR", []⟩

/-- A record whose categorical cells are all missing (`NaN`). -/
def recNoDomain : Record :=
  ⟨some 15, some 22, 7, 2, none, none, none, []⟩

/-- A raw row whose measure and date cells are all unparseable or empty. -/
def rawBad : RawRecord :=
  ⟨.str "TBD", .missing, .str "N/A", .missing, some "FY26", none, some "IT",
    [("Contract Name", .str "Alpha")]⟩

theorem insertLe_perm {α : Type} (le : α → α → Bool) (x : α) (l : List α) :
    (insertLe le x l).Perm (x :: l) := by
  induction l with
  | nil => exact List.Perm.refl _
  | cons y ys ih =>
      cases h : le x y with
      | true => simp [insertLe, h]
      | false =>
          simp only [insertLe, h, Bool.false_eq_true, if_false]
          exact (List.Perm.cons y ih).trans (List.Perm.swap x y ys)

theorem isort_perm {α : Type} (le : α → α → Bool) (l : List α) :
    (isort le l).Perm l := by
  induction l with
  | nil => exact List.Perm.refl _
  | cons x xs ih => exact (insertLe_perm le x (isort le xs)).trans (List.Perm.cons x ih)

theorem sum_filter_pos_add_neg (l : List ℚ) :
    l.sum = (l.filter (fun v => decide (0 < v))).sum
      + (l.filter (fun v => decide (v < 0))).sum := by
  induction l with
  | nil => simp
  | cons v l ih =>
      rcases lt_trichotomy v 0 with h | h | h
      · have h1 : (decide (0 < v)) = false := by simp [not_lt.mpr (le_of_lt h)]
        have h2 : (decide (v < 0)) = true := by simp [h]
        rw [List.sum_cons, List.filter_cons, List.filter_cons, h1, h2]
        simp only [Bool.false_eq_true, if_false, if_true, List.sum_cons]
        rw [ih]; ring
      · subst h
        rw [List.sum_cons, List.filter_cons, List.filter_cons]
        simpa using ih
      · have h1 : (decide (0 < v)) = true := by simp [h]
        have h2 : (decide (v < 0)) = false := by simp [not_lt.mpr (le_of_lt h)]
        rw [List.sum_cons, List.filter_cons, List.filter_cons, h1, h2]
        simp only [Bool.false_eq_true, if_false, if_true, List.sum_cons]
        rw [ih]; ring

theorem sum_filter_pos_nonneg (l : List ℚ) :
    0 ≤ (l.filter (fun v => decide (0 < v))).sum := by
  apply List.sum_nonneg
  intro x hx
  rw [List.mem_filter] at hx
  have := of_decide_eq_true hx.2
  linarith

theorem sum_filter_neg_nonpos (l : List ℚ) :
    (l.filter (fun v => decide (v < 0))).sum ≤ 0 := by
  induction l with
  | nil => simp
  | cons v l ih =>
      rw [List.filter_cons]
      by_cases h : v < 0
      · rw [decide_eq_true h]
        simp only [if_true, List.sum_cons]
        linarith
      · rw [decide_eq_false h]
        simp only [Bool.false_eq_true, if_false]
        exact ih

theorem colGains_eq (f : Record → ℚ) (rs : List Record) :
    colGains f rs = ((rs.map f).filter (fun v => decide (0 < v))).sum := by
  induction rs with
  | nil => rfl
  | cons r rs ih =>
      unfold colGains at *
      rw [List.map_cons, List.filter_cons, List.filter_cons]
      cases h : decide (0 < f r) <;> simp [h, ih]

theorem colRisks_eq (f : Record → ℚ) (rs : List Record) :
    colRisks f rs = ((rs.map f).filter (fun v => decide (v < 0))).sum := by
  induction rs with
  | nil => rfl
  | cons r rs ih =>
      unfold colRisks at *
      rw [List.map_cons, List.filter_cons, List.filter_cons]
      cases h : decide (f r < 0) <;> simp [h, ih]

theorem sum_map_ite_key (d : String) (c : ℚ) (S : String → ℚ) (ks : List String)
    (hnd : ks.Nodup) :
    (ks.map (fun k => if d = k then c + S k else S k)).sum
      = (if d ∈ ks then c else 0) + (ks.map S).sum := by
  induction ks with
  | nil => simp
  | cons k ks ih =>
      rw [List.nodup_cons] at hnd
      by_cases hdk : d = k
      · subst hdk
        have hmap : ks.map (fun k => if d = k then c + S k else S k) = ks.map S := by
          apply List.map_congr_left
          intro x hx
          have hne : d ≠ x := fun he => hnd.1 (he ▸ hx)
          simp [hne]
        rw [List.map_cons, List.sum_cons, if_pos rfl, hmap]
        have hin : d ∈ d :: ks := List.mem_cons_self d ks
        rw [if_pos hin, List.map_cons, List.sum_cons]
        ring
      · rw [List.map_cons, List.sum_cons, if_neg hdk, ih hnd.2,
          List.map_cons, List.sum_cons]
        by_cases hin : d ∈ ks
        · rw [if_pos hin, if_pos (List.mem_cons_of_mem k hin)]; ring
        · have hout : d ∉ k :: ks := by
            intro hc
            rcases List.mem_cons.mp hc with hc | hc
            · exact hdk hc
            · exact hin hc
          rw [if_neg hin, if_neg hout]; ring

theorem sum_map_filter_key (g : Record → Option String) (f : Record → ℚ)
    (ks : List String) (hnd : ks.Nodup) (rs : List Record) :
    (ks.map (fun k => colTotal f (rs.filter (fun r => decide (g r = some k))))).sum
      = colTotal f (rs.filter (fun r =>
          match g r with
          | some d => decide (d ∈ ks)
          | none => false)) := by
  induction rs with
  | nil => simp [colTotal]
  | cons r rs ih =>
      cases hg : g r with
      | none =>
          have hstep : ∀ k : String,
              colTotal f ((r :: rs).filter (fun x => decide (g x = some k)))
                = colTotal f (rs.filter (fun x => decide (g x = some k))) := by
            intro k
            rw [List.filter_cons]
            simp [hg]
          rw [List.map_congr_left (fun k _ => hstep k), ih]
          rw [List.filter_cons]
          simp [hg]
      | some d =>
          have hstep : ∀ k : String,
              colTotal f ((r :: rs).filter (fun x => decide (g x = some k)))
                = (if d = k
                    then f r + colTotal f (rs.filter (fun x => decide (g x = some k)))
                    else colTotal f (rs.filter (fun x => decide (g x = some k)))) := by
            intro k
            rw [List.filter_cons]
            by_cases hk : d = k
            · simp [hg, hk, colTotal]
            · simp [hg, hk]
          rw [List.map_congr_left (fun k _ => hstep k),
            sum_map_ite_key d (f r)
              (fun k => colTotal f (rs.filter (fun x => decide (g x = some k)))) ks hnd,
            ih, List.filter_cons]
          by_cases hin : d ∈ ks
          · simp [hg, hin, colTotal]
          · simp [hg, hin]

theorem groupKeys_nodup (g : Record → Option String) (rs : List Record) :
    (groupKeys g rs).Nodup := by
  unfold groupKeys
  exact (isort_perm strLeB (rs.filterMap g).dedup).nodup_iff.mpr
    (List.nodup_dedup _)

theorem mem_groupKeys (g : Record → Option String) (rs : List Record)
    (k : String) :
    k ∈ groupKeys g rs ↔ ∃ r ∈ rs, g r = some k := by
  unfold groupKeys
  rw [(isort_perm strLeB (rs.filterMap g).dedup).mem_iff, List.mem_dedup,
    List.mem_filterMap]

theorem groupSums_map_fst (g : Record → Option String) (f : Record → ℚ)
    (rs : List Record) :
    (groupSums g f rs).map Prod.fst = groupKeys g rs := by
  unfold groupSums
  rw [List.map_map]
  exact List.map_id _

theorem groupAggregate_perm (g : Record → Option String) (f : Record → ℚ)
    (rs : List Record) :
    (groupAggregate g f rs).Perm (groupSums g f rs) :=
  isort_perm _ _

theorem groupSums_snd_sum (g : Record → Option String) (f : Record → ℚ)
    (rs : List Record) :
    ((groupSums g f rs).map Prod.snd).sum
      = colTotal f (rs.filter (fun r => (g r).isSome)) := by
  unfold groupSums
  rw [List.map_map]
  have heq : ((groupKeys g rs).map
        (Prod.snd ∘ fun k =>
          (k, colTotal f (rs.filter (fun r => decide (g r = some k))))))
      = (groupKeys g rs).map
        (fun k => colTotal f (rs.filter (fun r => decide (g r = some k)))) := rfl
  rw [heq, sum_map_filter_key g f (groupKeys g rs) (groupKeys_nodup g rs) rs]
  congr 1
  apply List.filter_congr
  intro r hr
  cases hg : g r with
  | none => simp
  | some d =>
      simp only [Option.isSome_some]
      exact decide_eq_true ((mem_groupKeys g rs d).mpr ⟨r, hr, hg⟩)

/-- C1 counterexample: on the empty filtered view the dashboard's mean
(`filtered_df["Savings_Finance"].mean()`, app.py line 598) is the pandas
`NaN` — modelled `none` — and not the value 0 the claim requires. -/
theorem mean_empty_is_nan :
    (summarize savingsFinanceCol (applyFilters emptyFilterSpec ([] : List Record))).mean
        = none ∧
    (summarize savingsFinanceCol (applyFilters emptyFilterSpec ([] : List Record))).mean
        ≠ some 0 :=
  ⟨rfl, by decide⟩

/-- C1 (amended): for every filtered view, `summarize` returns mean =
total / count when the view is nonempty, and on the empty view returns
{total:0, positiveSum:0, negativeSum:0, count:0, mean:NaN} — the mean of an
empty view is pandas `NaN` (absent), not 0 and not an error. -/
theorem mean_spec_amended (f : Record → ℚ) (rs : List Record) :
    (rs ≠ [] → (summarize f rs).mean
        = some ((summarize f rs).total / ((summarize f rs).count : ℚ))) ∧
    summarize f ([] : List Record) = ⟨0, 0, 0, 0, none⟩ := by
  constructor
  · intro h
    show colMean f rs = some (colTotal f rs / (rs.length : ℚ))
    unfold colMean
    rw [if_neg (fun h0 => h (List.length_eq_zero.mp h0))]
  · rfl

/-- C1 witness: the amended claim evaluated on a one-record view and on the
empty view. -/
theorem mean_spec_amended_witness :
    (summarize savingsFinanceCol [recIT]).mean
        = some ((summarize savingsFinanceCol [recIT]).total
          / ((summarize savingsFinanceCol [recIT]).count : ℚ)) ∧
    summarize savingsFinanceCol ([] : List Record) = ⟨0, 0, 0, 0, none⟩ :=
  ⟨(mean_spec_amended savingsFinanceCol [recIT]).1 (by decide),
    (mean_spec_amended savingsFinanceCol [recIT]).2⟩

/-- C2 counterexample: a record whose group value is missing is dropped by
`groupby` (pandas defaults to `dropna=True`), so a one-record view with a
missing domain yields zero pairs — the missing value does not form its own
group. -/
theorem groupby_drops_missing_domain :
    recNoDomain.domain = none ∧ domain_finance [recNoDomain] = [] :=
  ⟨rfl, rfl⟩

/-- C2 (amended): `groupAggregate` partitions the records by distinct
PRESENT value of the group column — records with a missing group value are
dropped — producing one (category, sum-of-measure) pair per distinct present
group value. -/
theorem groupAggregate_groups_present_values (g : Record → Option String)
    (f : Record → ℚ) (rs : List Record) (k : String) (p : String × ℚ) :
    ((groupAggregate g f rs).map Prod.fst).Nodup ∧
    (k ∈ (groupAggregate g f rs).map Prod.fst ↔ ∃ r ∈ rs, g r = some k) ∧
    (p ∈ groupAggregate g f rs →
      p.2 = colTotal f (rs.filter (fun r => decide (g r = some p.1)))) := by
  have hperm := groupAggregate_perm g f rs
  refine ⟨?_, ?_, ?_⟩
  · exact ((hperm.map Prod.fst).nodup_iff).mpr
      (by rw [groupSums_map_fst]; exact groupKeys_nodup g rs)
  · rw [(hperm.map Prod.fst).mem_iff, groupSums_map_fst]
    exact mem_groupKeys g rs k
  · intro hp
    have hp2 : p ∈ groupSums g f rs := hperm.mem_iff.mp hp
    unfold groupSums at hp2
    rcases List.mem_map.mp hp2 with ⟨k2, _, hpk⟩
    rw [← hpk]

/-- C2 witness: the amended claim evaluated on a three-record view whose
third record has a missing domain; the pair ("IT", 100) is in the output
and its value is the sum over the "IT" records. -/
theorem groupAggregate_groups_present_values_witness :
    ((groupAggregate (fun r => r.domain) savingsFinanceCol
        [recIT, recHR, recNoDomain]).map Prod.fst).Nodup ∧
    (("IT" : String) ∈ (groupAggregate (fun r => r.domain) savingsFinanceCol
          [recIT, recHR, recNoDomain]).map Prod.fst
      ↔ ∃ r ∈ [recIT, recHR, recNoDomain], r.domain = some "IT") ∧
    (("IT", (100 : ℚ)).2 = colTotal savingsFinanceCol
        ([recIT, recHR, recNoDomain].filter
          (fun r => decide (r.domain = some ("IT", (100 : ℚ)).1)))) :=
  ⟨(groupAggregate_groups_present_values (fun r => r.domain) savingsFinanceCol
      [recIT, recHR, recNoDomain] "IT" ("IT", 100)).1,
   (groupAggregate_groups_present_values (fun r => r.domain) savingsFinanceCol
      [recIT, recHR, recNoDomain] "IT" ("IT", 100)).2.1,
   (groupAggregate_groups_present_values (fun r => r.domain) savingsFinanceCol
      [recIT, recHR, recNoDomain] "IT" ("IT", 100)).2.2
     (by
        have hcmp : ((-40 : ℚ)) ≤ 100 := by norm_num
        simp [groupAggregate, groupSums, groupKeys, sortByValue, isort,
          insertLe, strLeB, charListLt, colTotal, savingsFinanceCol, recIT,
          recHR, recNoDomain, hcmp])⟩

/-- C3 counterexample: with one record whose domain is missing and whose
finance savings is 7, the groupby drops the record, so the sum of the
aggregated values (0) differs from `summarize(...).total` (7). -/
theorem groupAggregate_sum_ne_total_on_missing :
    ((domain_finance [recNoDomain]).map Prod.snd).sum
      ≠ (summarize savingsFinanceCol [recNoDomain]).total := by
  have h1 : ((domain_finance [recNoDomain]).map Prod.snd).sum = 0 := rfl
  have h2 : (summarize savingsFinanceCol [recNoDomain]).total = 7 := by
    show colTotal savingsFinanceCol [recNoDomain] = 7
    simp [colTotal, savingsFinanceCol, recNoDomain]
  rw [h1, h2]
  norm_num

/-- C3 (amended): when every record of the filtered view has a present
group value, the sum of the aggregated values returned by `groupAggregate`
equals `summarize(filteredView, measureColumn).total`; in general it equals
the total over the records whose group value is present. -/
theorem groupAggregate_sum_eq_total_of_present (g : Record → Option String)
    (f : Record → ℚ) (rs : List Record)
    (h : ∀ r ∈ rs, (g r).isSome = true) :
    ((groupAggregate g f rs).map Prod.snd).sum = (summarize f rs).total := by
  rw [((groupAggregate_perm g f rs).map Prod.snd).sum_eq, groupSums_snd_sum]
  show colTotal f (rs.filter fun r => (g r).isSome) = colTotal f rs
  congr 1
  exact List.filter_eq_self.mpr h

/-- C3 witness: the amended claim evaluated on a two-record view with both
domains present. -/
theorem groupAggregate_sum_eq_total_of_present_witness :
    ((groupAggregate (fun r => r.domain) savingsFinanceCol
        [recIT, recHR]).map Prod.snd).sum
      = (summarize savingsFinanceCol [recIT, recHR]).total :=
  groupAggregate_sum_eq_total_of_present (fun r => r.domain) savingsFinanceCol
    [recIT, recHR] (by decide)

/-- C4: for every filtered view and measure column, total = positiveSum +
negativeSum: the positive split sums only the records with value > 0, the
negative split only those with value < 0 (keeping its sign), and zero-valued
records contribute to neither. -/
theorem total_eq_pos_add_neg (f : Record → ℚ) (rs : List Record) :
    (summarize f rs).total
      = (summarize f rs).positiveSum + (summarize f rs).negativeSum := by
  show colTotal f rs = colGains f rs + colRisks f rs
  rw [colGains_eq, colRisks_eq]
  exact sum_filter_pos_add_neg (rs.map f)

/-- C4 witness: the conservation law evaluated on a mixed-sign view. -/
theorem total_eq_pos_add_neg_witness :
    (summarize savingsFinanceCol [recIT, recHR, recNoDomain]).total
      = (summarize savingsFinanceCol [recIT, recHR, recNoDomain]).positiveSum
        + (summarize savingsFinanceCol [recIT, recHR, recNoDomain]).negativeSum :=
  total_eq_pos_add_neg savingsFinanceCol [recIT, recHR, recNoDomain]

/-- C6: a record whose date value is absent fails any active range
predicate on that column and is excluded; a record with a present date
value survives iff the value satisfies the bounds that are set, inclusively
(app.py lines 343-347: `>=` on `Contract Start` against the lower bound and
`<=` on `Contract End` against the upper bound; `NaT` compares `False`). -/
theorem date_range_filter_mem (lb ub : ℤ) (ds : List Record) (r : Record) :
    r ∈ applyFilters ⟨some lb, some ub, "All", "All", "All Domains"⟩ ds
      ↔ r ∈ ds ∧ (∃ s, r.contractStart = some s ∧ lb ≤ s)
          ∧ (∃ e, r.contractEnd = some e ∧ e ≤ ub) := by
  have hd : applyFilters ⟨some lb, some ub, "All", "All", "All Domains"⟩ ds
      = (ds.filter (fun x =>
            match x.contractStart with
            | some d => decide (lb ≤ d)
            | none => false)).filter
          (fun x =>
            match x.contractEnd with
            | some d => decide (d ≤ ub)
            | none => false) := rfl
  rw [hd, List.mem_filter, List.mem_filter]
  constructor
  · rintro ⟨⟨hin, h1⟩, h2⟩
    refine ⟨hin, ?_, ?_⟩
    · cases hs : r.contractStart with
      | none => rw [hs] at h1; simp at h1
      | some s =>
          rw [hs] at h1
          exact ⟨s, rfl, of_decide_eq_true h1⟩
    · cases he : r.contractEnd with
      | none => rw [he] at h2; simp at h2
      | some e =>
          rw [he] at h2
          exact ⟨e, rfl, of_decide_eq_true h2⟩
  · rintro ⟨hin, ⟨s, hs, hlb⟩, ⟨e, he, hub⟩⟩
    refine ⟨⟨hin, ?_⟩, ?_⟩
    · rw [hs]; exact decide_eq_true hlb
    · rw [he]; exact decide_eq_true hub

/-- C6 witness: the range-filter membership law evaluated on a two-record
view; `recHR` has an absent `Contract Start` and is excluded. -/
theorem date_range_filter_mem_witness :
    (recHR ∈ applyFilters ⟨some 5, some 30, "All", "All", "All Domains"⟩
        [recIT, recHR]
      ↔ recHR ∈ [recIT, recHR]
          ∧ (∃ s, recHR.contractStart = some s ∧ 5 ≤ s)
          ∧ (∃ e, recHR.contractEnd = some e ∧ e ≤ 30)) :=
  date_range_filter_mem 5 30 [recIT, recHR] recHR

/-- C7: applying the empty filter specification (no date bound selected,
every categorical selector on its accept-all sentinel) returns the dataset
unchanged — same records, same order. -/
theorem applyFilters_empty_spec_identity (ds : List Record) :
    applyFilters emptyFilterSpec ds = ds := rfl

/-- C7 witness: the identity law evaluated on a three-record dataset. -/
theorem applyFilters_empty_spec_identity_witness :
    applyFilters emptyFilterSpec [recIT, recHR, recNoDomain]
      = [recIT, recHR, recNoDomain] :=
  applyFilters_empty_spec_identity [recIT, recHR, recNoDomain]

/-- C8: normalization is total and never raises: every input record
produces exactly one output record (rowwise map, length preserved), an
unparseable measure cell becomes 0, an unparseable date cell becomes
absent, and the non-designated cells pass through unchanged
(app.py lines 253-260). -/
theorem normalize_total_and_fallbacks (raws : List RawRecord)
    (raw : RawRecord) :
    (normalize raws).length = raws.length ∧
    normalize raws = raws.map normalizeRecord ∧
    (coerceNum raw.rawSavingsFinance = none →
      (normalizeRecord raw).savingsFinance = 0) ∧
    (coerceNum raw.rawSavingsSCP = none →
      (normalizeRecord raw).savingsSCP = 0) ∧
    (coerceDate raw.rawContractStart = none →
      (normalizeRecord raw).contractStart = none) ∧
    (coerceDate raw.rawContractEnd = none →
      (normalizeRecord raw).contractEnd = none) ∧
    (normalizeRecord raw).financeFY = raw.financeFY ∧
    (normalizeRecord raw).scpFY = raw.scpFY ∧
    (normalizeRecord raw).domain = raw.domain ∧
    (normalizeRecord raw).extra = raw.extra := by
  refine ⟨by simp [normalize], rfl, ?_, ?_, ?_, ?_, rfl, rfl, rfl, rfl⟩
  · intro h
    show (coerceNum raw.rawSavingsFinance).getD 0 = 0
    rw [h]
    rfl
  · intro h
    show (coerceNum raw.rawSavingsSCP).getD 0 = 0
    rw [h]
    rfl
  · intro h
    exact h
  · intro h
    exact h

/-- C8 witness: normalization evaluated on a row whose measure cells are
"N/A" / empty and whose date cells are "TBD" / empty. -/
theorem normalize_total_and_fallbacks_witness :
    (normalize [rawBad]).length = [rawBad].length ∧
    normalize [rawBad] = [rawBad].map normalizeRecord ∧
    (normalizeRecord rawBad).savingsFinance = 0 ∧
    (normalizeRecord rawBad).savingsSCP = 0 ∧
    (normalizeRecord rawBad).contractStart = none ∧
    (normalizeRecord rawBad).contractEnd = none ∧
    (normalizeRecord rawBad).financeFY = rawBad.financeFY ∧
    (normalizeRecord rawBad).scpFY = rawBad.scpFY ∧
    (normalizeRecord rawBad).domain = rawBad.domain ∧
    (normalizeRecord rawBad).extra = rawBad.extra :=
  ⟨(normalize_total_and_fallbacks [rawBad] rawBad).1,
   (normalize_total_and_fallbacks [rawBad] rawBad).2.1,
   (normalize_total_and_fallbacks [rawBad] rawBad).2.2.1 rfl,
   (normalize_total_and_fallbacks [rawBad] rawBad).2.2.2.1 rfl,
   (normalize_total_and_fallbacks [rawBad] rawBad).2.2.2.2.1 rfl,
   (normalize_total_and_fallbacks [rawBad] rawBad).2.2.2.2.2.1 rfl,
   (normalize_total_and_fallbacks [rawBad] rawBad).2.2.2.2.2.2.1,
   (normalize_total_and_fallbacks [rawBad] rawBad).2.2.2.2.2.2.2.1,
   (normalize_total_and_fallbacks [rawBad] rawBad).2.2.2.2.2.2.2.2.1,
   (normalize_total_and_fallbacks [rawBad] rawBad).2.2.2.2.2.2.2.2.2⟩

/-- C9: an equality filter on its accept-all sentinel passes every record,
including records with a missing categorical value, so the full dataset
comes back; with a specific accepted value set, a record survives iff its
categorical value equals that value exactly (string equality: case
sensitive, no trimming), so a missing value never matches. -/
theorem categorical_filter_semantics (ds : List Record) (v : String)
    (r : Record) (h : v ≠ "All Domains") :
    applyFilters ⟨none, none, "All", "All", "All Domains"⟩ ds = ds ∧
    (r ∈ applyFilters ⟨none, none, "All", "All", v⟩ ds
      ↔ r ∈ ds ∧ r.domain = some v) := by
  refine ⟨rfl, ?_⟩
  have hd : applyFilters ⟨none, none, "All", "All", v⟩ ds
      = applyDomain v ds := rfl
  rw [hd]
  unfold applyDomain
  rw [if_neg h, List.mem_filter]
  simp

/-- C9 witness: the equality-filter law evaluated with accepted value "IT"
on a view containing a missing-domain record. -/
theorem categorical_filter_semantics_witness :
    applyFilters ⟨none, none, "All", "All", "All Domains"⟩
        [recIT, recHR, recNoDomain] = [recIT, recHR, recNoDomain] ∧
    (recNoDomain ∈ applyFilters ⟨none, none, "All", "All", "IT"⟩
        [recIT, recHR, recNoDomain]
      ↔ recNoDomain ∈ [recIT, recHR, recNoDomain]
          ∧ recNoDomain.domain = some "IT") :=
  categorical_filter_semantics [recIT, recHR, recNoDomain] "IT" recNoDomain
    (by decide)

/-- C10: for every filtered view and measure column, the positive split is
never negative and the negative split is never positive. -/
theorem gains_nonneg_risks_nonpos (f : Record → ℚ) (rs : List Record) :
    0 ≤ (summarize f rs).positiveSum ∧ (summarize f rs).negativeSum ≤ 0 := by
  constructor
  · show 0 ≤ colGains f rs
    rw [colGains_eq]
    exact sum_filter_pos_nonneg _
  · show colRisks f rs ≤ 0
    rw [colRisks_eq]
    exact sum_filter_neg_nonpos _

/-- C10 witness: the sign bounds evaluated on a mixed-sign view. -/
theorem gains_nonneg_risks_nonpos_witness :
    0 ≤ (summarize savingsFinanceCol [recIT, recHR, recNoDomain]).positiveSum
      ∧ (summarize savingsFinanceCol [recIT, recHR, recNoDomain]).negativeSum
        ≤ 0 :=
  gains_nonneg_risks_nonpos savingsFinanceCol [recIT, recHR, recNoDomain]

end SCP
